import Mathlib

namespace Telewrapper

/-!
Verification of the telewrapper process-supervision and log-compaction engine.

The definitions below are a shallow embedding of the repository's Python
sources:

* `src/telewrapper/logs.py` — `MAX_LOG_LINES`, `strip_ansi`,
  `process_terminal_output` (the same two functions are duplicated verbatim
  in `src/telewrapper/cli.py`);
* `src/telewrapper/bot.py` — `TeleWrapperBot.build_dashboard_text`,
  `TeleWrapperBot.handle_button` (again duplicated in `cli.py`);
* `src/telewrapper/process.py` — `ProcessManager.terminate`.

The log buffer is a Python `collections.deque(maxlen=MAX_LOG_LINES)`
(constructed in `cli.py`, `TeleWrapper.__init__`), modelled as a `List String`
together with the bounded-append operation `deque_append`.  Python strings are
modelled as Lean `String` (both are sequences of unicode code points, and
`String.length` agrees with Python `len`).
-/

/-! ### Python primitive behaviour -/

/-- The characters Python's `str.strip()` (no argument) removes: all unicode
whitespace. -/
def isPySpace (c : Char) : Bool :=
  let n := c.toNat
  (decide (0x09 ≤ n) && decide (n ≤ 0x0D)) ||
  (decide (0x1C ≤ n) && decide (n ≤ 0x1F)) ||
  decide (n = 0x20) || decide (n = 0x85) || decide (n = 0xA0) ||
  decide (n = 0x1680) ||
  (decide (0x2000 ≤ n) && decide (n ≤ 0x200A)) ||
  decide (n = 0x2028) || decide (n = 0x2029) ||
  decide (n = 0x202F) || decide (n = 0x205F) || decide (n = 0x3000)

/-- `hasNonWs l` is the truthiness of Python's `l.strip()`: the string has at
least one non-whitespace character. -/
def hasNonWs (l : List Char) : Bool :=
  l.any (fun c => ! isPySpace c)

/-- Python `data.split(sep)` for a single-character separator: keeps empty
fragments and always returns a non-empty list. -/
def splitOnChar (sep : Char) : List Char → List (List Char)
  | [] => [[]]
  | c :: rest =>
    if c = sep then [] :: splitOnChar sep rest
    else
      match splitOnChar sep rest with
      | [] => [[c]]
      | h :: t => (c :: h) :: t

/-- The line-boundary characters of Python's `str.splitlines`. -/
def isPyLineBreak (c : Char) : Bool :=
  let n := c.toNat
  decide (n = 0x0A) || decide (n = 0x0B) || decide (n = 0x0C) ||
  decide (n = 0x0D) || decide (n = 0x1C) || decide (n = 0x1D) ||
  decide (n = 0x1E) || decide (n = 0x85) ||
  decide (n = 0x2028) || decide (n = 0x2029)

/-- Fuelled worker for Python's `splitlines(keepends=True)`: each line keeps
its break characters, and `\r\n` counts as a single break.  The fuel only
bounds recursion depth; any fuel `≥ l.length` gives the real answer (see
`slFuel_congr`). -/
def slFuel : Nat → List Char → List (List Char)
  | _, [] => []
  | 0, l => [l]
  | fuel + 1, c :: rest =>
    if c = '\r' then
      match rest with
      | '\n' :: r2 => ['\r', '\n'] :: slFuel fuel r2
      | _ => ['\r'] :: slFuel fuel rest
    else if isPyLineBreak c then [c] :: slFuel fuel rest
    else
      match slFuel fuel rest with
      | [] => [[c]]
      | h :: t => (c :: h) :: t

/-- Python `data.splitlines(keepends=True)` at the `List Char` level. -/
def splitlinesList (l : List Char) : List (List Char) := slFuel l.length l

/-! ### The bounded log ring (`collections.deque(maxlen=MAX_LOG_LINES)`) -/

/-- `MAX_LOG_LINES = 50` from `logs.py` (and duplicated in `cli.py`). -/
def MAX_LOG_LINES : Nat := 50

/-- `deque.append` on a Python `deque(maxlen=N)`: when the deque is full the
chronologically oldest element is evicted from the left. -/
def deque_append (N : Nat) (buf : List String) (x : String) : List String :=
  if buf.length < N then buf ++ [x]
  else (buf ++ [x]).drop (buf.length + 1 - N)

/-- Python `s.endswith("\n")`: the last character is a line feed. -/
def ends_with_newline (s : String) : Bool :=
  match s.data.getLast? with
  | some c => c = '\n'
  | none => false

/-- The `while log_buffer and not log_buffer[-1].endswith("\n"): log_buffer.pop()`
loop of `process_terminal_output`: remove trailing entries that do not end in a
line feed. -/
def pop_incomplete (buf : List String) : List String :=
  (buf.reverse.dropWhile (fun s => ! ends_with_newline s)).reverse

/-- The `\r`-separated fragments of a chunk, as Python's `data.split("\r")`. -/
def cr_fragments (data : String) : List String :=
  (splitOnChar '\r' data.data).map String.mk

/-- `non_empty_parts[-1]` of `process_terminal_output`: the last fragment of
`data.split("\r")` that has a non-whitespace character (`p.strip()` truthy). -/
def last_nonblank_fragment (data : String) : Option String :=
  ((cr_fragments data).filter (fun p => hasNonWs p.data)).getLast?

/-- `process_terminal_output(log_buffer, data)` from `logs.py` (duplicated in
`cli.py`), acting on a deque of capacity `N`.

If the chunk contains `\r` it is treated as a progress bar: the chunk is split
on `\r`, blank fragments are discarded, trailing incomplete buffer entries are
popped, and only the last non-blank fragment is appended (the Python
`if latest.endswith("\n")`/`else` both perform the same `append`).  Otherwise
the chunk is split with `splitlines(keepends=True)` and each piece is appended. -/
def process_terminal_output (N : Nat) (buf : List String) (data : String) : List String :=
  if data.data.contains '\r' then
    match last_nonblank_fragment data with
    | none => buf
    | some latest => deque_append N (pop_incomplete buf) latest
  else
    ((splitlinesList data.data).map String.mk).foldl (deque_append N) buf

/-! ### Ring lemmas -/

/-! ### `strip_ansi` (logs.py) — the ANSI-escape regex of the source -/

/-- The escape character `\x1B`. -/
def escChar : Char := Char.ofNat 0x1B

/-- The character class `[@-Z\\-_]` (Fe escapes): `0x40`–`0x5A` and `0x5C`–`0x5F`. -/
def inAnsiClass1 (c : Char) : Bool :=
  let n := c.toNat
  (decide (0x40 ≤ n) && decide (n ≤ 0x5A)) || (decide (0x5C ≤ n) && decide (n ≤ 0x5F))

/-- CSI parameter bytes `[0-?]`: `0x30`–`0x3F`. -/
def isCsiParam (c : Char) : Bool :=
  decide (0x30 ≤ c.toNat) && decide (c.toNat ≤ 0x3F)

/-- CSI intermediate bytes: `0x20`–`0x2F`. -/
def isCsiInter (c : Char) : Bool :=
  decide (0x20 ≤ c.toNat) && decide (c.toNat ≤ 0x2F)

/-- CSI final bytes `[@-~]`: `0x40`–`0x7E`. -/
def isCsiFinal (c : Char) : Bool :=
  decide (0x40 ≤ c.toNat) && decide (c.toNat ≤ 0x7E)

/-- Matches the CSI body (parameter bytes, then intermediate bytes, then one
final byte) at the front of `l`, returning the remainder.  Because the three
byte classes are disjoint, the greedy match is the only possible one. -/
def csiMatch (l : List Char) : Option (List Char) :=
  match (l.dropWhile isCsiParam).dropWhile isCsiInter with
  | [] => none
  | f :: rest => if isCsiFinal f then some rest else none

/-- Fuelled left-to-right pass of `re.sub` with the `strip_ansi` pattern:
matches can only start at an escape character; on a match the matched
characters are dropped, otherwise the character is kept and scanning resumes
at the next position.  Any fuel `≥ l.length` gives the real answer, since
every step consumes at least one character. -/
def saFuel : Nat → List Char → List Char
  | _, [] => []
  | 0, l => l
  | fuel + 1, c :: rest =>
    if c = escChar then
      match rest with
      | [] => [c]
      | d :: rest2 =>
        if inAnsiClass1 d then saFuel fuel rest2
        else if d = '[' then
          match csiMatch rest2 with
          | some rest3 => saFuel fuel rest3
          | none => c :: saFuel fuel (d :: rest2)
        else c :: saFuel fuel (d :: rest2)
    else c :: saFuel fuel rest

/-- `strip_ansi` from `logs.py` (duplicated in `cli.py`). -/
def strip_ansi (s : String) : String := String.mk (saFuel s.data.length s.data)

/-! ### `html.escape` (used by `build_dashboard_text`) -/

/-- The replacement `html.escape(s, quote=True)` performs for one character. -/
def escapeChar (c : Char) : List Char :=
  if c.toNat = 38 then "&amp;".data
  else if c.toNat = 60 then "&lt;".data
  else if c.toNat = 62 then "&gt;".data
  else if c.toNat = 34 then "&quot;".data
  else if c.toNat = 39 then "&#x27;".data
  else [c]

/-- Python `html.escape(s, quote=True)`.  The five sequential `str.replace`
calls are equivalent to this single character-wise pass because no replacement
string contains a character that a later `replace` rewrites. -/
def htmlEscape (s : String) : String :=
  String.mk (s.data.foldr (fun c acc => escapeChar c ++ acc) [])

/-! ### Process and bot state -/

/-- The `ProcessManager` attributes read and written by the embedded code
(`process.py`): whether `self.process` is set, `self.is_running`,
`self.return_code`, and the shared log ring `self.log_buffer`. -/
structure ProcState where
  process_exists : Bool
  is_running : Bool
  return_code : Option Int
  log_buffer : List String
deriving DecidableEq

/-- The `TeleWrapperBot` attributes read by `build_dashboard_text` and
`handle_button` (`bot.py`), with the `ProcessManager` state embedded. -/
structure BotState where
  hostname : String
  pid : Nat
  command : String
  session_id : String
  shutdown_signal : Bool
  pm : ProcState
deriving DecidableEq

/-! ### `build_dashboard_text` (bot.py; duplicated in cli.py)

The renderer's external inputs — the metrics strings `cpu`, `mem`,
`gpu_stats` coming from `system_monitor.get_stats()` and the elapsed-time
string `duration` (`str(datetime.now() - self.start_time)`) — are passed as
explicit parameters, matching the spec's
`render(processState, logSnapshot, metricsText, elapsedDuration)` contract.
Each `def` below corresponds to one local variable of the Python function. -/

/-- How Python renders `self.return_code` inside an f-string. -/
def rc_str (rc : Option Int) : String :=
  match rc with
  | some n => toString n
  | none => "None"

/-- The `status_icon` local of `build_dashboard_text`. -/
def status_icon (pm : ProcState) : String :=
  if pm.is_running then "🟢 Running"
  else if pm.return_code = some 0 then "✅ Done (Exit: " ++ rc_str pm.return_code ++ ")"
  else "❌ Error (Exit: " ++ rc_str pm.return_code ++ ")"

/-- The `logs` local of `build_dashboard_text`:
`html.escape(strip_ansi("".join(log_buffer)))` with the `"Starting..."`
fallback when empty. -/
def logs_escaped (pm : ProcState) : String :=
  let raw_logs := String.join pm.log_buffer
  let clean_logs := strip_ansi raw_logs
  let logs := htmlEscape clean_logs
  if logs = "" then "Starting..." else logs

/-- The `header` local of `build_dashboard_text` after both `+=` updates:
host/PID line, command line, status, time, CPU/RAM, the optional GPU line,
and the recent-log title. -/
def dashboard_header (st : BotState) (cpu mem gpu_stats duration : String) : String :=
  let safe_hostname := htmlEscape st.hostname
  let safe_command := htmlEscape st.command
  let safe_gpu_stats := if gpu_stats = "" then "" else htmlEscape gpu_stats
  let duration0 := String.mk ((splitOnChar '.' duration.data).headD [])
  let header0 :=
    "🖥 <b>" ++ safe_hostname ++ "</b> (PID: " ++ toString st.pid ++ ")\n" ++
    "⚙️ <code>" ++ safe_command ++ "</code>\n\n" ++
    "Status: " ++ status_icon st.pm ++ "\n" ++
    "Time: " ++ duration0 ++ "\n" ++
    "CPU: " ++ cpu ++ "% | RAM: " ++ mem ++ "%\n"
  let header1 :=
    if safe_gpu_stats = "" then header0
    else header0 ++ "<code>" ++ safe_gpu_stats ++ "</code>\n"
  header1 ++ "\n📜 <b>Recent Log (Last " ++ toString MAX_LOG_LINES ++ "):</b>\n"

/-- The `trunc_msg` literal of `build_dashboard_text` (19 characters). -/
def trunc_msg : String := "\n...[truncated]...\n"

/-- Python `logs[-keep:]` for `keep > 0`: the trailing `keep` characters. -/
def pyTakeRight (s : String) (keep : Nat) : String :=
  String.mk (s.data.drop (s.data.length - keep))

/-- The `logs` local after the truncation block: `max_len = 4096`,
`overhead = len(header) + len("<pre></pre>") + 20`,
`available_chars = max_len - overhead`, computed over `Int` because
`available_chars` and `keep_len` can go negative in Python. -/
def logs_body (st : BotState) (cpu mem gpu_stats duration : String) : String :=
  let header := dashboard_header st cpu mem gpu_stats duration
  let logs := logs_escaped st.pm
  let available_chars : Int :=
    4096 - ((header.length : Int) + (("<pre></pre>" : String).length : Int) + 20)
  if (logs.length : Int) > available_chars then
    let keep_len : Int := available_chars - (trunc_msg.length : Int)
    if keep_len > 0 then trunc_msg ++ pyTakeRight logs keep_len.toNat
    else trunc_msg
  else logs

/-- `build_dashboard_text`: the returned message
`f"{header}<pre>{logs}</pre>"`. -/
def build_dashboard_text (st : BotState) (cpu mem gpu_stats duration : String) : String :=
  dashboard_header st cpu mem gpu_stats duration ++ "<pre>" ++
    logs_body st cpu mem gpu_stats duration ++ "</pre>"

/-! ### `ProcessManager.terminate` (process.py) and `handle_button` (bot.py) -/

/-- The process-signalling API calls available on the child handle.  The
source only ever calls `process.terminate()` (SIGTERM); `kill` is listed so
that "never force-kills" is expressible. -/
inductive SigAction
  | sigterm
  | sigkill
deriving DecidableEq

/-- `ProcessManager.terminate` from `process.py` (the same code is inlined in
`cli.py`'s `handle_button`).  `sig_err = some e` models
`self.process.terminate()` raising exception text `e` (the `except` branch);
`none` models the successful call.  Returns the new state together with the
OS call that was attempted (`none` when the guard fails and nothing is
called). -/
def ProcessManager.terminate (pm : ProcState) (sig_err : Option String) :
    ProcState × Option SigAction :=
  if pm.process_exists && pm.is_running then
    match sig_err with
    | none =>
      ({ pm with log_buffer :=
          deque_append MAX_LOG_LINES pm.log_buffer "\n[WRAPPER] Sent SIGTERM to process...\n" },
        some SigAction.sigterm)
    | some e =>
      ({ pm with log_buffer :=
          deque_append MAX_LOG_LINES pm.log_buffer ("\n[WRAPPER] Error killing: " ++ e ++ "\n") },
        some SigAction.sigterm)
  else (pm, none)

/-- The observable reply `handle_button` sends back to the remote caller. -/
inductive Reply
  | staleAlert
  | answered
  | exitEdit (text : String)
deriving DecidableEq

/-- `handle_button` from `bot.py` after `query.data.split(":")` produced
`action` and `target`: the stale-session guard, then the `refresh` / `kill` /
`exit` dispatch.  Unknown actions fall through with no state change. -/
def handle_button (st : BotState) (action target : String) (sig_err : Option String) :
    BotState × Reply :=
  if target ≠ st.session_id then (st, Reply.staleAlert)
  else if action = "refresh" then (st, Reply.answered)
  else if action = "kill" then
    ({ st with pm := (ProcessManager.terminate st.pm sig_err).1 }, Reply.answered)
  else if action = "exit" then
    ({ st with shutdown_signal := true },
      Reply.exitEdit ("🛑 Wrapper su " ++ st.hostname ++ " terminato."))
  else (st, Reply.answered)

/-! ### Concrete states used in witnesses and counterexamples -/

/-- `n` copies of the letter `a`, as a string. -/
def repA (n : Nat) : String := String.mk (List.replicate n 'a')

/-- A minimal running bot state with an empty log ring. -/
def stSmall : BotState :=
  { hostname := "h", pid := 1, command := "c", session_id := "s",
    shutdown_signal := false,
    pm := { process_exists := true, is_running := true, return_code := none,
            log_buffer := [] } }

/-- A copy of `stSmall` that differs in every renderer-irrelevant field:
session token, shutdown flag, and the raw process handle. -/
def stSmall2 : BotState :=
  { hostname := "h", pid := 1, command := "c", session_id := "t",
    shutdown_signal := true,
    pm := { process_exists := false, is_running := true, return_code := none,
            log_buffer := [] } }

/-- An already-exited process state. -/
def pmDone : ProcState :=
  { process_exists := true, is_running := false, return_code := some 0,
    log_buffer := ["x\n"] }

/-- "All entries except possibly the last end in a line feed" — the spec's
at-most-one-trailing-incomplete Ring invariant. -/
def all_but_last_complete (buf : List String) : Prop :=
  ∀ s ∈ buf.dropLast, ends_with_newline s = true

/-! ### Theorems -/

theorem slFuel_nil (fuel : Nat) : slFuel fuel [] = [] := by
  cases fuel <;> rfl

theorem slFuel_crlf (fuel : Nat) (r2 : List Char) :
    slFuel (fuel + 1) ('\r' :: '\n' :: r2) = ['\r', '\n'] :: slFuel fuel r2 := rfl

theorem slFuel_cr_nil (fuel : Nat) :
    slFuel (fuel + 1) ['\r'] = [['\r']] := by
  have step : slFuel (fuel + 1) ['\r'] = ['\r'] :: slFuel fuel [] := rfl
  rw [step, slFuel_nil]

theorem slFuel_cr (fuel : Nat) (c2 : Char) (r2 : List Char) (h2 : c2 ≠ '\n') :
    slFuel (fuel + 1) ('\r' :: c2 :: r2) = ['\r'] :: slFuel fuel (c2 :: r2) := by
  have step : slFuel (fuel + 1) ('\r' :: c2 :: r2) =
      (match c2 :: r2 with
       | '\n' :: r3 => ['\r', '\n'] :: slFuel fuel r3
       | _ => ['\r'] :: slFuel fuel (c2 :: r2)) := by
    simp [slFuel]
  rw [step]
  split
  · simp_all
  · rfl

theorem slFuel_break (fuel : Nat) (c : Char) (rest : List Char)
    (hc : c ≠ '\r') (hb : isPyLineBreak c = true) :
    slFuel (fuel + 1) (c :: rest) = [c] :: slFuel fuel rest := by
  simp [slFuel, hc, hb]

theorem slFuel_plain (fuel : Nat) (c : Char) (rest : List Char)
    (hc : c ≠ '\r') (hb : isPyLineBreak c = false) :
    slFuel (fuel + 1) (c :: rest) =
      (match slFuel fuel rest with
       | [] => [[c]]
       | h :: t => (c :: h) :: t) := by
  simp [slFuel, hc, hb]

theorem slFuel_congr :
    ∀ (m n : Nat) (l : List Char), l.length ≤ m → l.length ≤ n →
      slFuel m l = slFuel n l := by
  intro m
  induction m with
  | zero =>
    intro n l hm _
    have hnil : l = [] := List.eq_nil_of_length_eq_zero (Nat.le_zero.mp hm)
    subst hnil
    rw [slFuel_nil, slFuel_nil]
  | succ m ih =>
    intro n l hm hn
    match l, n with
    | [], n => rw [slFuel_nil, slFuel_nil]
    | c :: rest, 0 => simp at hn
    | c :: rest, n + 1 =>
      simp only [List.length_cons] at hm hn
      by_cases hc : c = '\r'
      · subst hc
        match rest with
        | [] => rw [slFuel_cr_nil, slFuel_cr_nil]
        | c2 :: r2 =>
          simp only [List.length_cons] at hm hn
          by_cases h2 : c2 = '\n'
          · subst h2
            rw [slFuel_crlf, slFuel_crlf, ih n r2 (by omega) (by omega)]
          · rw [slFuel_cr m c2 r2 h2, slFuel_cr n c2 r2 h2,
              ih n (c2 :: r2) (by simp only [List.length_cons]; omega)
                (by simp only [List.length_cons]; omega)]
      · by_cases hb : isPyLineBreak c = true
        · rw [slFuel_break m c rest hc hb, slFuel_break n c rest hc hb,
            ih n rest (by omega) (by omega)]
        · rw [slFuel_plain m c rest hc (by simpa using hb),
            slFuel_plain n c rest hc (by simpa using hb),
            ih n rest (by omega) (by omega)]

theorem slFuel_join :
    ∀ (fuel : Nat) (l : List Char), l.length ≤ fuel → (slFuel fuel l).flatten = l := by
  intro fuel
  induction fuel with
  | zero =>
    intro l hl
    have hnil : l = [] := List.eq_nil_of_length_eq_zero (Nat.le_zero.mp hl)
    subst hnil
    rfl
  | succ fuel ih =>
    intro l hl
    match l with
    | [] => rfl
    | c :: rest =>
      simp only [List.length_cons] at hl
      by_cases hc : c = '\r'
      · subst hc
        match rest with
        | [] => rw [slFuel_cr_nil]; rfl
        | c2 :: r2 =>
          simp only [List.length_cons] at hl
          by_cases h2 : c2 = '\n'
          · subst h2
            rw [slFuel_crlf]
            simp only [List.flatten_cons]
            rw [ih r2 (by omega)]
            rfl
          · rw [slFuel_cr fuel c2 r2 h2]
            simp only [List.flatten_cons]
            rw [ih (c2 :: r2) (by simp only [List.length_cons]; omega)]
            rfl
      · by_cases hb : isPyLineBreak c = true
        · rw [slFuel_break fuel c rest hc hb]
          simp only [List.flatten_cons]
          rw [ih rest (by omega)]
          rfl
        · rw [slFuel_plain fuel c rest hc (by simpa using hb)]
          have hrest := ih rest (by omega)
          rcases hsp : slFuel fuel rest with _ | ⟨h, t⟩
          · rw [hsp] at hrest
            simp only [List.flatten_nil] at hrest
            simp [← hrest]
          · rw [hsp] at hrest
            simp only [List.flatten_cons] at hrest ⊢
            rw [List.cons_append, hrest]

theorem splitlinesList_join (l : List Char) : (splitlinesList l).flatten = l :=
  slFuel_join l.length l le_rfl

theorem deque_append_length {N : Nat} {buf : List String} (x : String)
    (h : buf.length ≤ N) : (deque_append N buf x).length ≤ N := by
  unfold deque_append
  split
  · simp only [List.length_append, List.length_singleton]
    omega
  · simp only [List.length_drop, List.length_append, List.length_singleton]
    omega

theorem foldl_deque_length {N : Nat} :
    ∀ (xs : List String) (buf : List String), buf.length ≤ N →
      (xs.foldl (deque_append N) buf).length ≤ N := by
  intro xs
  induction xs with
  | nil => intro buf h; simpa using h
  | cons x xs ih =>
    intro buf h
    simpa using ih (deque_append N buf x) (deque_append_length x h)

theorem deque_append_full {N : Nat} {buf : List String} (x : String)
    (hN : 0 < N) (h : buf.length = N) :
    deque_append N buf x = buf.drop 1 ++ [x] := by
  unfold deque_append
  rw [if_neg (by omega)]
  rw [show buf.length + 1 - N = 1 by omega]
  rw [List.drop_append_of_le_length (by omega)]

theorem deque_append_no_evict {N : Nat} {buf : List String} (x : String)
    (h : buf.length < N) : deque_append N buf x = buf ++ [x] := by
  unfold deque_append
  rw [if_pos h]

theorem foldl_deque_no_evict {N : Nat} :
    ∀ (xs : List String) (buf : List String), buf.length + xs.length ≤ N →
      xs.foldl (deque_append N) buf = buf ++ xs := by
  intro xs
  induction xs with
  | nil => intro buf _; simp
  | cons x xs ih =>
    intro buf h
    simp only [List.length_cons] at h
    simp only [List.foldl_cons]
    rw [deque_append_no_evict x (by omega)]
    rw [ih (buf ++ [x]) (by simp; omega)]
    simp

theorem foldl_deque_from_nil {N : Nat} :
    ∀ xs : List String, xs.foldl (deque_append N) [] = xs.drop (xs.length - N) := by
  intro xs
  induction xs using List.reverseRecOn with
  | nil => simp
  | append_singleton xs x ih =>
    rw [List.foldl_append, ih]
    simp only [List.foldl_cons, List.foldl_nil]
    by_cases hN : N = 0
    · subst hN
      unfold deque_append
      simp
    · by_cases hlen : xs.length < N
      · rw [show xs.length - N = 0 by omega]
        simp only [List.drop_zero]
        rw [deque_append_no_evict x hlen]
        rw [show (xs ++ [x]).length - N = 0 by
          simp only [List.length_append, List.length_singleton]; omega]
        simp
      · have hdlen : (xs.drop (xs.length - N)).length = N := by
          simp only [List.length_drop]; omega
        rw [deque_append_full x (by omega) hdlen, List.drop_drop,
          show xs.length - N + 1 = xs.length + 1 - N by omega,
          show (xs ++ [x]).length - N = xs.length + 1 - N by
            simp only [List.length_append, List.length_singleton]]
        rw [List.drop_append_of_le_length (by omega)]

theorem mem_deque_append {N : Nat} {buf : List String} {x y : String}
    (h : y ∈ deque_append N buf x) : y ∈ buf ∨ y = x := by
  unfold deque_append at h
  split at h
  · rcases List.mem_append.mp h with h1 | h1
    · exact Or.inl h1
    · exact Or.inr (List.mem_singleton.mp h1)
  · have := List.mem_of_mem_drop h
    rcases List.mem_append.mp this with h1 | h1
    · exact Or.inl h1
    · exact Or.inr (List.mem_singleton.mp h1)

theorem mem_pop_incomplete {buf : List String} {y : String}
    (h : y ∈ pop_incomplete buf) : y ∈ buf := by
  unfold pop_incomplete at h
  have h1 := List.mem_reverse.mp h
  have h2 := (List.dropWhile_sublist _).mem h1
  exact List.mem_reverse.mp h2

theorem pop_incomplete_all_complete {buf : List String}
    (h : ∀ s ∈ buf.dropLast, ends_with_newline s = true) :
    ∀ s ∈ pop_incomplete buf, ends_with_newline s = true := by
  induction buf using List.reverseRecOn with
  | nil => intro s hs; simp [pop_incomplete] at hs
  | append_singleton ys y ih =>
    have hys : ∀ s ∈ ys, ends_with_newline s = true := by
      intro s hs
      exact h s (by simpa using hs)
    intro s hs
    unfold pop_incomplete at hs
    rw [List.reverse_append, List.reverse_singleton] at hs
    by_cases hy : ends_with_newline y = true
    · rw [List.singleton_append, List.dropWhile_cons_of_neg (by simp [hy])] at hs
      rcases List.mem_cons.mp (List.mem_reverse.mp hs) with h1 | h1
      · exact h1 ▸ hy
      · exact hys s (List.mem_reverse.mp h1)
    · rw [List.singleton_append, List.dropWhile_cons_of_pos (by simp [hy])] at hs
      exact ih (fun s hs => hys s (List.mem_of_mem_dropLast hs)) s
        (by simpa [pop_incomplete] using hs)

theorem csiMatch_length {l r : List Char} (h : csiMatch l = some r) :
    r.length < l.length + 1 := by
  have h1 : ((l.dropWhile isCsiParam).dropWhile isCsiInter).length ≤ l.length :=
    le_trans (List.dropWhile_sublist _).length_le (List.dropWhile_sublist _).length_le
  unfold csiMatch at h
  split at h
  · exact absurd h (by simp)
  · next f rest heq =>
    split at h
    · cases h
      rw [heq] at h1
      simp only [List.length_cons] at h1
      omega
    · exact absurd h (by simp)

theorem saFuel_replicate (fuel n : Nat) :
    saFuel fuel (List.replicate n 'a') = List.replicate n 'a' := by
  induction fuel generalizing n with
  | zero => cases n <;> rfl
  | succ fuel ih =>
    cases n with
    | zero => rfl
    | succ n =>
      simp only [List.replicate_succ, saFuel]
      rw [if_neg (by decide)]
      rw [ih n]

theorem strip_ansi_repA (n : Nat) : strip_ansi (repA n) = repA n := by
  unfold strip_ansi repA
  rw [show (String.mk (List.replicate n 'a')).data = List.replicate n 'a' from rfl]
  rw [saFuel_replicate]

theorem htmlEscape_repA (n : Nat) : htmlEscape (repA n) = repA n := by
  unfold htmlEscape repA
  rw [show (String.mk (List.replicate n 'a')).data = List.replicate n 'a' from rfl]
  congr 1
  induction n with
  | zero => rfl
  | succ n ih =>
    simp only [List.replicate_succ, List.foldr_cons]
    rw [ih]
    rfl

theorem repA_length (n : Nat) : (repA n).length = n := by
  simp [repA]

theorem repA_ne_empty {n : Nat} (h : n ≠ 0) : repA n ≠ "" := by
  intro he
  have hlen := congrArg String.length he
  rw [repA_length] at hlen
  simp at hlen
  exact h hlen

set_option maxRecDepth 40000 in
theorem hdr_big_len :
    (dashboard_header stSmall "0.0" "0.0" (repA 4100) "0:00:01").length = 4239 := by
  simp only [dashboard_header]
  rw [if_neg (repA_ne_empty (by decide)), htmlEscape_repA,
    if_neg (repA_ne_empty (by decide))]
  simp only [String.length_append, repA_length]
  decide

theorem pyTakeRight_length (s : String) (keep : Nat) :
    (pyTakeRight s keep).length = min keep s.length := by
  simp only [pyTakeRight, String.mk_length, List.length_drop, String.length]
  omega

theorem pyTakeRight_suffix (s : String) (keep : Nat) :
    List.IsSuffix (pyTakeRight s keep).data s.data := by
  simp only [pyTakeRight]
  exact List.drop_suffix _ _

set_option maxRecDepth 40000 in
/-- Claim C2 counterexample: the rendered report is NOT always at most 4096
characters.  With a 4100-character metrics text the header alone exceeds the
budget and the `keep_len <= 0` branch still emits header + marker, producing
a 4269-character message. -/
theorem render_budget_counterexample :
    4096 < (build_dashboard_text stSmall "0.0" "0.0" (repA 4100) "0:00:01").length := by
  have hlogs : logs_escaped stSmall.pm = "Starting..." := by decide
  have hbody : logs_body stSmall "0.0" "0.0" (repA 4100) "0:00:01" = trunc_msg := by
    simp only [logs_body]
    rw [hdr_big_len, hlogs]
    rw [if_pos (by decide), if_neg (by decide)]
  simp only [build_dashboard_text, String.length_append, hbody, hdr_big_len]
  decide

/-- Claim C2 (amended): whenever the assembled header is at most 4066
characters (the 4096 budget minus the 11-character `<pre></pre>` wrapper and
the 19-character truncation marker), the rendered report is at most 4096
characters — in particular for log content of arbitrary size.  An oversized
header (e.g. a multi-kilobyte metrics text) breaks the bound, see the
counterexample. -/
theorem render_budget_of_header_bound (st : BotState) (cpu mem gpu_stats duration : String)
    (hH : (dashboard_header st cpu mem gpu_stats duration).length ≤ 4066) :
    (build_dashboard_text st cpu mem gpu_stats duration).length ≤ 4096 := by
  have hwrap : ((("<pre></pre>" : String).length : Int)) = 11 := rfl
  have htr : trunc_msg.length = 19 := rfl
  simp only [build_dashboard_text, String.length_append,
    show ("<pre>" : String).length = 5 from rfl,
    show ("</pre>" : String).length = 6 from rfl]
  simp only [logs_body, hwrap, htr]
  split
  · split
    · next h1 h2 =>
      rw [String.length_append, htr, pyTakeRight_length]
      omega
    · next h1 h2 =>
      rw [htr]
      omega
  · next h1 =>
    omega

set_option maxRecDepth 40000 in
/-- Witness for the amended C2 at a small concrete state. -/
theorem render_budget_of_header_bound_witness :
    (build_dashboard_text stSmall "0.0" "0.0" "" "0:00:01").length ≤ 4096 :=
  render_budget_of_header_bound stSmall "0.0" "0.0" "" "0:00:01" (by decide)

set_option maxRecDepth 40000 in
/-- Claim C6: when the sanitized/escaped log text exceeds the log budget, the
log body of the rendered report is the truncation marker followed by a
trailing suffix of the untruncated log text, sized so that marker plus suffix
exactly fill the budget; when even the marker does not fit, it is the marker
alone. -/
theorem truncation_tail_marker (st : BotState) (cpu mem gpu_stats duration : String)
    (h : ((logs_escaped st.pm).length : Int) >
      4096 - (((dashboard_header st cpu mem gpu_stats duration).length : Int) + 11 + 20)) :
    build_dashboard_text st cpu mem gpu_stats duration =
      dashboard_header st cpu mem gpu_stats duration ++ "<pre>" ++
        logs_body st cpu mem gpu_stats duration ++ "</pre>" ∧
    ∃ s : String,
      List.IsSuffix s.data (logs_escaped st.pm).data ∧
      logs_body st cpu mem gpu_stats duration = trunc_msg ++ s ∧
      ((19 : Int) < 4096 - (((dashboard_header st cpu mem gpu_stats duration).length : Int) + 11 + 20) →
        (trunc_msg.length : Int) + (s.length : Int) =
          4096 - (((dashboard_header st cpu mem gpu_stats duration).length : Int) + 11 + 20)) ∧
      (4096 - (((dashboard_header st cpu mem gpu_stats duration).length : Int) + 11 + 20) ≤ (19 : Int) →
        s = "") := by
  refine ⟨rfl, ?_⟩
  have hwrap : ((("<pre></pre>" : String).length : Int)) = 11 := rfl
  have htr : trunc_msg.length = 19 := rfl
  simp only [logs_body, hwrap]
  rw [if_pos h]
  by_cases h2 : (4096 - (((dashboard_header st cpu mem gpu_stats duration).length : Int) + 11 + 20)
      - (trunc_msg.length : Int)) > 0
  · rw [if_pos h2]
    refine ⟨pyTakeRight (logs_escaped st.pm)
      (4096 - (((dashboard_header st cpu mem gpu_stats duration).length : Int) + 11 + 20)
        - (trunc_msg.length : Int)).toNat, ?_, rfl, ?_, ?_⟩
    · exact pyTakeRight_suffix _ _
    · intro _
      rw [pyTakeRight_length]
      rw [htr] at h2 ⊢
      omega
    · intro hle
      rw [htr] at h2
      omega
  · rw [if_neg h2]
    refine ⟨"", List.nil_suffix, by simp, ?_, fun _ => rfl⟩
    intro hlt
    rw [htr] at h2
    omega

/-- Witness for C6 at a state whose header exceeds the whole budget, so the
log body is the bare truncation marker. -/
theorem truncation_tail_marker_witness :
    logs_body stSmall "0.0" "0.0" (repA 4100) "0:00:01" = trunc_msg := by
  obtain ⟨-, s, -, heq, -, hempty⟩ :=
    truncation_tail_marker stSmall "0.0" "0.0" (repA 4100) "0:00:01"
      (by rw [hdr_big_len]; decide)
  rw [heq, hempty (by rw [hdr_big_len]; decide)]
  simp

/-- Claim C8: the renderer is deterministic — it reads only the session
constants (hostname, pid, command), the process state (running flag, exit
code), the log snapshot, and the metrics/duration arguments.  Two states
agreeing on those (but possibly differing in session token, shutdown flag, or
process handle) render byte-identically. -/
theorem render_deterministic (st1 st2 : BotState) (cpu mem gpu_stats duration : String)
    (hh : st1.hostname = st2.hostname) (hp : st1.pid = st2.pid)
    (hc : st1.command = st2.command)
    (hr : st1.pm.is_running = st2.pm.is_running)
    (hrc : st1.pm.return_code = st2.pm.return_code)
    (hlb : st1.pm.log_buffer = st2.pm.log_buffer) :
    build_dashboard_text st1 cpu mem gpu_stats duration =
      build_dashboard_text st2 cpu mem gpu_stats duration := by
  obtain ⟨h1, p1, c1, s1, d1, pe1, r1, rc1, lb1⟩ := st1
  obtain ⟨h2, p2, c2, s2, d2, pe2, r2, rc2, lb2⟩ := st2
  simp only at hh hp hc hr hrc hlb
  subst hh hp hc hr hrc hlb
  rfl

/-- Witness for C8: two concrete states differing only in session token,
shutdown flag and process handle render identically. -/
theorem render_deterministic_witness :
    build_dashboard_text stSmall "0.0" "0.0" "" "0:00:01" =
      build_dashboard_text stSmall2 "0.0" "0.0" "" "0:00:01" :=
  render_deterministic stSmall stSmall2 "0.0" "0.0" "" "0:00:01" rfl rfl rfl rfl rfl rfl

/-- Claim C9: `terminate()` issues the graceful `terminate()` call (SIGTERM,
never `kill()`) exactly when a process handle exists and the child is still
running; in that case it appends one advisory line to the log ring (a success
note, or an error note when signalling raises); otherwise it is a no-op that
changes neither the process state nor the ring. -/
theorem terminate_graceful_iff_running (pm : ProcState) (sig_err : Option String) :
    ((ProcessManager.terminate pm sig_err).2 = some SigAction.sigterm ↔
      pm.process_exists = true ∧ pm.is_running = true) ∧
    (ProcessManager.terminate pm sig_err).2 ≠ some SigAction.sigkill ∧
    (ProcessManager.terminate pm sig_err).1.process_exists = pm.process_exists ∧
    (ProcessManager.terminate pm sig_err).1.is_running = pm.is_running ∧
    (ProcessManager.terminate pm sig_err).1.return_code = pm.return_code ∧
    (pm.process_exists = true → pm.is_running = true →
      (ProcessManager.terminate pm sig_err).1.log_buffer =
        deque_append MAX_LOG_LINES pm.log_buffer
          (match sig_err with
           | none => "\n[WRAPPER] Sent SIGTERM to process...\n"
           | some e => "\n[WRAPPER] Error killing: " ++ e ++ "\n")) ∧
    (¬(pm.process_exists = true ∧ pm.is_running = true) →
      ProcessManager.terminate pm sig_err = (pm, none)) := by
  unfold ProcessManager.terminate
  by_cases hc : (pm.process_exists && pm.is_running) = true
  · rw [if_pos hc]
    rw [Bool.and_eq_true] at hc
    cases sig_err <;>
      simp [hc]
  · rw [if_neg hc]
    rw [Bool.and_eq_true] at hc
    refine ⟨⟨fun h => absurd h (by simp), fun h => absurd h hc⟩, by simp, rfl, rfl, rfl,
      fun hpe hir => absurd ⟨hpe, hir⟩ hc, fun _ => rfl⟩

/-- Witness for C9: on an exited process, `terminate` is a no-op and sends
nothing. -/
theorem terminate_graceful_iff_running_witness :
    ProcessManager.terminate pmDone none = (pmDone, none) :=
  (terminate_graceful_iff_running pmDone none).2.2.2.2.2.2 (by decide)

/-- Claim C7: an action whose session token differs from the current
session's token is answered with the stale-session alert and mutates nothing:
the returned state is the input state, so process state, shutdown flag and
log ring are all unchanged. -/
theorem stale_session_no_mutation (st : BotState) (action target : String)
    (sig_err : Option String) (h : target ≠ st.session_id) :
    handle_button st action target sig_err = (st, Reply.staleAlert) ∧
    (handle_button st action target sig_err).1.pm = st.pm ∧
    (handle_button st action target sig_err).1.shutdown_signal = st.shutdown_signal ∧
    (handle_button st action target sig_err).1.pm.log_buffer = st.pm.log_buffer := by
  have he : handle_button st action target sig_err = (st, Reply.staleAlert) := by
    unfold handle_button
    rw [if_pos h]
  exact ⟨he, by rw [he], by rw [he], by rw [he]⟩

/-- Witness for C7 at a concrete stale `kill` action. -/
theorem stale_session_no_mutation_witness :
    handle_button stSmall "kill" "zzz" none = (stSmall, Reply.staleAlert) :=
  (stale_session_no_mutation stSmall "kill" "zzz" none (by decide)).1

/-- Claim C3: the ring is a bounded FIFO of capacity `MAX_LOG_LINES = 50`:
(i) any sequence of appends keeps the length at most 50; (ii) an append at
length 50 evicts exactly the chronologically oldest line; (iii) 200 appends
into an empty ring leave exactly the last 50 lines in their original order. -/
theorem ring_bounded_fifo :
    (∀ (xs buf : List String), buf.length ≤ MAX_LOG_LINES →
      (xs.foldl (deque_append MAX_LOG_LINES) buf).length ≤ MAX_LOG_LINES) ∧
    (∀ (buf : List String) (x : String), buf.length = MAX_LOG_LINES →
      deque_append MAX_LOG_LINES buf x = buf.drop 1 ++ [x]) ∧
    (∀ xs : List String, xs.length = 200 →
      xs.foldl (deque_append MAX_LOG_LINES) [] = xs.drop 150) := by
  refine ⟨fun xs buf h => foldl_deque_length xs buf h,
    fun buf x h => deque_append_full x (by decide) h,
    fun xs h => ?_⟩
  rw [foldl_deque_from_nil, h]
  rfl

/-- Witness for C3: 200 single-line appends leave the last 50 lines. -/
theorem ring_bounded_fifo_witness :
    ((List.replicate 150 "a\n") ++ (List.replicate 50 "b\n")).foldl
        (deque_append MAX_LOG_LINES) [] = List.replicate 50 "b\n" := by
  rw [ring_bounded_fifo.2.2 _
    (by rw [List.length_append, List.length_replicate, List.length_replicate])]
  rw [List.drop_left' (by rw [List.length_replicate])]

/-- Claim C1: a chunk containing a carriage return commits only its last
non-blank `\r`-separated fragment: `"a\rb\rc\n"` into an empty ring leaves
exactly `["c\n"]`, and in general every entry of the resulting ring either
was already in the ring or is that last non-blank fragment — no earlier
`\r`-frame of the chunk ever persists. -/
theorem compactor_cr_commits_last_fragment :
    process_terminal_output MAX_LOG_LINES [] "a\rb\rc\n" = ["c\n"] ∧
    (∀ (N : Nat) (buf : List String) (data : String),
      data.data.contains '\r' = true →
      ∀ x ∈ process_terminal_output N buf data,
        x ∈ buf ∨ last_nonblank_fragment data = some x) := by
  constructor
  · decide
  · intro N buf data hcr x hx
    unfold process_terminal_output at hx
    rw [if_pos hcr] at hx
    match hl : last_nonblank_fragment data with
    | none =>
      rw [hl] at hx
      exact Or.inl hx
    | some latest =>
      rw [hl] at hx
      rcases mem_deque_append hx with h1 | h1
      · exact Or.inl (mem_pop_incomplete h1)
      · subst h1
        exact Or.inr rfl

/-- Witness for C1's general clause at a concrete chunk. -/
theorem compactor_cr_commits_last_fragment_witness :
    "y\n" ∈ (["old\n"] : List String) ∨ last_nonblank_fragment "x\ry\n" = some "y\n" :=
  compactor_cr_commits_last_fragment.2 MAX_LOG_LINES ["old\n"] "x\ry\n"
    (by decide) "y\n" (by decide)

/-- Claim C10: a chunk that contains a carriage return but whose
`\r`-separated fragments are all empty or whitespace-only leaves the ring
unchanged — in particular an existing trailing incomplete line survives. -/
theorem blank_cr_chunk_frame (N : Nat) (buf : List String) (data : String)
    (hcr : data.data.contains '\r' = true)
    (hblank : ∀ p ∈ cr_fragments data, hasNonWs p.data = false) :
    process_terminal_output N buf data = buf := by
  unfold process_terminal_output
  rw [if_pos hcr]
  have hnone : last_nonblank_fragment data = none := by
    unfold last_nonblank_fragment
    rw [List.filter_eq_nil_iff.mpr (fun p hp => by simp [hblank p hp])]
    rfl
  rw [hnone]

/-- Witness for C10: an all-blank progress-bar chunk leaves a ring with a
trailing incomplete line untouched. -/
theorem blank_cr_chunk_frame_witness :
    process_terminal_output MAX_LOG_LINES ["partial"] "\r \r\t" = ["partial"] :=
  blank_cr_chunk_frame MAX_LOG_LINES ["partial"] "\r \r\t" (by decide) (by decide)

theorem contains_append_false {c : Char} {l1 l2 : List Char}
    (h1 : l1.contains c = false) (h2 : l2.contains c = false) :
    (l1 ++ l2).contains c = false := by
  rw [Bool.eq_false_iff] at h1 h2 ⊢
  intro hc
  have hmem : c ∈ l1 ++ l2 := List.elem_iff.mp hc
  rcases List.mem_append.mp hmem with h | h
  · exact h1 (List.elem_iff.mpr h)
  · exact h2 (List.elem_iff.mpr h)

theorem process_no_cr {N : Nat} {buf : List String} {data : String}
    (h : data.data.contains '\r' = false) :
    process_terminal_output N buf data =
      ((splitlinesList data.data).map String.mk).foldl (deque_append N) buf := by
  unfold process_terminal_output
  rw [if_neg (by rw [h]; simp)]

/-- Claim C4 counterexample: feeding `"abc\n"` in the two chunks `"ab"`,
`"c\n"` does NOT give the same ring contents as feeding it whole — the
incomplete fragment `"ab"` becomes its own entry instead of being merged. -/
theorem chunk_boundary_counterexample :
    process_terminal_output MAX_LOG_LINES
        (process_terminal_output MAX_LOG_LINES [] "ab") "c\n" ≠
      process_terminal_output MAX_LOG_LINES [] "abc\n" := by decide

/-- Claim C4 (amended): for carriage-return-free text split at an arbitrary
boundary, only the *concatenated text* of the ring is chunking-independent,
and only while no eviction occurs (the entries stay within capacity): the
entry lists themselves differ, because an incomplete trailing fragment is
appended as its own entry rather than extending the previous one, and once
the ring overflows, eviction counts differ between the two runs. -/
theorem chunk_boundary_text_no_evict (N : Nat) (buf : List String) (c1 c2 : String)
    (h1 : c1.data.contains '\r' = false) (h2 : c2.data.contains '\r' = false)
    (hcap2 : buf.length + (splitlinesList c1.data).length +
      (splitlinesList c2.data).length ≤ N)
    (hcap1 : buf.length + (splitlinesList (c1.data ++ c2.data)).length ≤ N) :
    String.join (process_terminal_output N (process_terminal_output N buf c1) c2) =
      String.join (process_terminal_output N buf (c1 ++ c2)) := by
  have h12 : (c1 ++ c2).data.contains '\r' = false := by
    rw [String.data_append]
    exact contains_append_false h1 h2
  rw [process_no_cr h1, process_no_cr h2, process_no_cr h12]
  rw [foldl_deque_no_evict ((splitlinesList c1.data).map String.mk) buf
    (by rw [List.length_map]; omega)]
  rw [foldl_deque_no_evict ((splitlinesList c2.data).map String.mk)
    (buf ++ (splitlinesList c1.data).map String.mk)
    (by rw [List.length_append, List.length_map, List.length_map]; omega)]
  rw [show (c1 ++ c2).data = c1.data ++ c2.data from String.data_append c1 c2]
  rw [foldl_deque_no_evict ((splitlinesList (c1.data ++ c2.data)).map String.mk) buf
    (by rw [List.length_map]; omega)]
  rw [String.join_eq, String.join_eq]
  congr 1
  simp only [List.map_append, List.map_map, List.flatten_append]
  rw [show (String.data ∘ String.mk) = (id : List Char → List Char) from
    funext (fun l => rfl)]
  simp only [List.map_id]
  rw [splitlinesList_join, splitlinesList_join, splitlinesList_join]
  rw [List.append_assoc]

/-- Witness for the amended C4 at the concrete split `"ab"` + `"c\n"`. -/
theorem chunk_boundary_text_no_evict_witness :
    String.join (process_terminal_output MAX_LOG_LINES
        (process_terminal_output MAX_LOG_LINES [] "ab") "c\n") =
      String.join (process_terminal_output MAX_LOG_LINES [] ("ab" ++ "c\n")) :=
  chunk_boundary_text_no_evict MAX_LOG_LINES [] "ab" "c\n"
    (by decide) (by decide) (by decide) (by decide)

theorem mem_dropLast_deque_append {N : Nat} {c : List String} {x s : String}
    (h : s ∈ (deque_append N c x).dropLast) : s ∈ c := by
  unfold deque_append at h
  split at h
  · rw [List.dropLast_concat] at h
    exact h
  · by_cases hk : c.length + 1 - N ≤ c.length
    · rw [List.drop_append_of_le_length hk, List.dropLast_concat] at h
      exact List.mem_of_mem_drop h
    · rw [show c.length + 1 - N = c.length + 1 by omega] at h
      rw [List.drop_eq_nil_of_le (by simp)] at h
      simp at h

/-- Claim C5 counterexample: the ring can hold two incomplete entries at
once, and an incomplete fragment does not extend the existing trailing
incomplete line — feeding `"ab"` then `"cd"` gives the two incomplete
entries `["ab", "cd"]`. -/
theorem trailing_incomplete_counterexample :
    process_terminal_output MAX_LOG_LINES
        (process_terminal_output MAX_LOG_LINES [] "ab") "cd" = ["ab", "cd"] ∧
    ends_with_newline "ab" = false ∧ ends_with_newline "cd" = false := by decide

/-- Claim C5 (amended): the compactor does not maintain the
at-most-one-trailing-incomplete invariant — carriage-return-free chunks
append incomplete fragments as separate entries (see the counterexample).
What holds is that carriage-return chunks preserve the invariant: if at most
the last ring entry is incomplete, this is still true after processing any
chunk that contains a carriage return. -/
theorem cr_chunk_preserves_all_but_last_complete (N : Nat) (buf : List String)
    (data : String) (hcr : data.data.contains '\r' = true)
    (hbuf : all_but_last_complete buf) :
    all_but_last_complete (process_terminal_output N buf data) := by
  unfold process_terminal_output
  rw [if_pos hcr]
  match hl : last_nonblank_fragment data with
  | none => exact hbuf
  | some latest =>
    intro s hs
    exact pop_incomplete_all_complete hbuf s (mem_dropLast_deque_append hs)

/-- Witness for the amended C5: a ring with one trailing incomplete entry
still has at most one incomplete entry after a progress-bar chunk. -/
theorem cr_chunk_preserves_all_but_last_complete_witness :
    all_but_last_complete (process_terminal_output MAX_LOG_LINES ["x\n", "y"] "p\rq") :=
  cr_chunk_preserves_all_but_last_complete MAX_LOG_LINES ["x\n", "y"] "p\rq"
    (by decide) (by unfold all_but_last_complete; decide)

end Telewrapper
